import Mathlib

/-!
Verification model of the Oraculo multi-tenant knowledge store
(`core/database.py`), its RAG orchestrator (`core/rag.py`) and the
backend delete endpoint (`backend/main.py`).

Modelling conventions:
* Python strings become `String`, numbers become `ℚ` (the ranking claims
  are independent of floating-point values), lists become `List`.
* The embedding provider and the cosine scoring function are external
  collaborators (network calls / float arithmetic with a real square
  root), so they are passed as parameters to the operations that use
  them; every claim proved here holds for all such parameters.
* Python `dict` values flowing between `buscar` and `_extract_sources`
  are modelled as association lists of `PVal` (a small JSON-like value
  type), because the key names themselves are load-bearing.
* Observable side effects that the claims mention (whether `_salvar_db`
  or the embedding provider was invoked) are returned as explicit flags.
-/

namespace Oraculo

/-- JSON-like runtime value, used for persisted records and for the
Python dicts returned by `buscar`. -/
inductive PVal where
  | vnull : PVal
  | vstr (s : String) : PVal
  | vnum (q : ℚ) : PVal
  | vlist (l : List PVal) : PVal

/-- A chunk record (`Documento` dataclass, database.py lines 19-36).
Optional metadata fields carry their dataclass defaults. -/
structure Documento where
  id : String
  content : String
  embedding : List ℚ
  source : String
  type : String
  upload_date : String
  chunk_index : ℕ
  total_chunks : ℕ
  page_number : Option ℤ := none
  timestamp_start : Option ℚ := none
  timestamp_end : Option ℚ := none
  heading_context : Option String := none
  content_type : String := "text"
  sector_id : String := "default"
deriving DecidableEq

/-- The sector filter used by `buscar`, `get_estatisticas`, `limpar_base`
(database.py lines 153-155, 214-216, 249-254): with a sector requested,
keep exactly the records whose `sector_id` matches; `None` keeps all.
(`str(getattr(d, 'sector_id', 'default'))` always yields `d.sector_id`
here, since the dataclass always has the attribute and ids are strings.) -/
def sectorFilter (sid : Option String) (docs : List Documento) : List Documento :=
  match sid with
  | none => docs
  | some s => docs.filter (fun d => d.sector_id = s)

/-- Stable descending insertion: keep earlier elements whose score is
strictly greater, place the new element before the first element whose
score is not greater (so before any equal-scored later element). -/
def insertDesc {α : Type} (x : α × ℚ) : List (α × ℚ) → List (α × ℚ)
  | [] => [x]
  | y :: ys => if x.2 < y.2 then y :: insertDesc x ys else x :: y :: ys

/-- Model of `resultados.sort(key=lambda x: x[1], reverse=True)`
(database.py line 170): Python's sort is stable, and a stable descending
sort is uniquely determined by the key, so this insertion sort computes
the same list. -/
def sortDesc {α : Type} (l : List (α × ℚ)) : List (α × ℚ) :=
  l.foldr insertDesc []

/-- The ranking policy of `buscar` applied to the scored candidates
(database.py lines 169-180): sort descending, drop scores below the
threshold, and fall back to the unfiltered top-k when fewer than 3
survive while at least 3 candidates existed. -/
def rankResults (scored : List (Documento × ℚ)) (k : ℕ) (threshold : ℚ) :
    List (Documento × ℚ) :=
  let resultados := sortDesc scored
  let resultados_filtrados := resultados.filter (fun x => threshold ≤ x.2)
  if resultados_filtrados.length < 3 ∧ 3 ≤ resultados.length then
    resultados.take k
  else
    resultados_filtrados.take k

/-- A Python dict, as an association list. -/
abbrev PDict : Type := List (String × PVal)

/-- `dict.get(key, default)`. -/
def dictGet (d : PDict) (key : String) (dflt : PVal) : PVal :=
  match d.find? (fun kv => kv.1 = key) with
  | some kv => kv.2
  | none => dflt

/-- Helpers turning optional metadata into dict values. -/
def optIntVal : Option ℤ → PVal
  | none => PVal.vnull
  | some n => PVal.vnum (n : ℚ)

def optRatVal : Option ℚ → PVal
  | none => PVal.vnull
  | some q => PVal.vnum q

def optStrVal : Option String → PVal
  | none => PVal.vnull
  | some s => PVal.vstr s

/-- The result dict built for each returned candidate
(database.py lines 183-195). Note the score is stored under the key
`"score"`, and `timestamp_end` is not included. -/
def projectDoc (p : Documento × ℚ) : PDict :=
  [("content", PVal.vstr p.1.content),
   ("source", PVal.vstr p.1.source),
   ("type", PVal.vstr p.1.type),
   ("score", PVal.vnum p.2),
   ("page_number", optIntVal p.1.page_number),
   ("timestamp_start", optRatVal p.1.timestamp_start),
   ("heading_context", optStrVal p.1.heading_context),
   ("content_type", PVal.vstr p.1.content_type)]

/-- `KnowledgeBase.buscar` (database.py lines 133-195), parametrised by
the embedding provider `embedQuery` and the scoring function `sim`
(standing for `_cosine_similarity` with the query embedding).
Returns the result list together with a flag recording whether the
embedding provider was invoked on the query. -/
def buscar (embedQuery : String → List ℚ) (sim : List ℚ → List ℚ → ℚ)
    (docs : List Documento) (pergunta : String) (sector_id : Option String)
    (k : ℕ) (threshold : ℚ) : List PDict × Bool :=
  let documentos := sectorFilter sector_id docs
  if documentos.isEmpty then ([], false)
  else
    let query_embedding := embedQuery pergunta
    let scored := documentos.map (fun d => (d, sim query_embedding d.embedding))
    ((rankResults scored k threshold).map projectDoc, true)

/-- `tipos[d.type] = tipos.get(d.type, 0) + 1` over an insertion-ordered
dict (database.py lines 227-229). -/
def bumpTipo : List (String × ℕ) → String → List (String × ℕ)
  | [], t => [(t, 1)]
  | (k, v) :: rest, t =>
      if k = t then (k, v + 1) :: rest else (k, v) :: bumpTipo rest t

/-- Statistics record returned by `get_estatisticas`. `fontes` is a
Python `set`, whose iteration order is unspecified, so it is modelled
as a `Finset`. -/
structure Estatisticas where
  total_chunks : ℕ
  total_documentos : ℕ
  fontes : Finset String
  tipos : List (String × ℕ)
deriving DecidableEq

/-- `KnowledgeBase.get_estatisticas` (database.py lines 203-236). -/
def get_estatisticas (sector_id : Option String) (docs : List Documento) :
    Estatisticas :=
  let documentos := sectorFilter sector_id docs
  if documentos.isEmpty then ⟨0, 0, ∅, []⟩
  else
    let fontes := (documentos.map (fun d => d.source)).toFinset
    let tipos := documentos.foldl (fun acc d => bumpTipo acc d.type) []
    ⟨documentos.length, fontes.card, fontes, tipos⟩

/-- `KnowledgeBase.limpar_base` (database.py lines 238-261): returns the
new collection and the success flag (the model has no persistence
failures, so the flag is `true`). -/
def limpar_base (sector_id : Option String) (docs : List Documento) :
    List Documento × Bool :=
  match sector_id with
  | some s => (docs.filter (fun d => ¬ d.sector_id = s), true)
  | none => ([], true)

/-- `KnowledgeBase.remover_documento` (database.py lines 263-287). -/
def remover_documento (fonte : String) (sector_id : Option String)
    (docs : List Documento) : List Documento × Bool :=
  match sector_id with
  | some s =>
      (docs.filter (fun d => ¬ (d.source = fonte ∧ d.sector_id = s)), true)
  | none => (docs.filter (fun d => ¬ d.source = fonte), true)

/-- Result of one `adicionar_documento` call: the new collection, the
return value, and flags recording whether the embedding provider and
`_salvar_db` were invoked. -/
structure AddResult where
  documentos : List Documento
  ret : ℕ
  embedCalled : Bool
  saved : Bool
deriving DecidableEq

/-- `KnowledgeBase.adicionar_documento` (database.py lines 87-131),
parametrised by the splitter (`RecursiveCharacterTextSplitter.split_text`,
an external library), the batch embedding provider, and the ingestion
timestamp (`datetime.now().isoformat()`). Faithful to
`enumerate(zip(chunks, embeddings))`: when the provider returns a list
of different length, the zip truncates while `total_chunks` stays
`len(chunks)`. -/
def adicionar_documento (split : String → List String)
    (embed : List String → List (List ℚ)) (now : String)
    (docs : List Documento) (texto fonte tipo : String)
    (sector_id : String) : AddResult :=
  let chunks := split texto
  if chunks.isEmpty then ⟨docs, 0, false, false⟩
  else
    let embeddings := embed chunks
    let base_id := fonte ++ "_" ++ now
    let novos_docs := (chunks.zip embeddings).enum.map (fun p =>
      { id := base_id ++ "_" ++ toString p.1,
        content := p.2.1,
        embedding := p.2.2,
        source := fonte,
        type := tipo,
        upload_date := now,
        chunk_index := p.1,
        total_chunks := chunks.length,
        sector_id := sector_id : Documento })
    ⟨docs ++ novos_docs, novos_docs.length, true, true⟩

/-- HTTP outcome of the backend delete endpoint: success message with
the removed-chunk count, or a 404. -/
inductive DeleteOutcome where
  | ok (removed : ℕ) : DeleteOutcome
  | notFound : DeleteOutcome
deriving DecidableEq

/-- `delete_document` (backend/main.py lines 601-617, after the
URL-decoding normalisation, which only rewrites the `source` string):
filters the collection in place, computes `removed` as the length
difference, saves and reports the count when positive, raises 404
otherwise. -/
def delete_document (docs : List Documento) (source : String)
    (sector_id : Option String) : List Documento × DeleteOutcome :=
  let initial_count := docs.length
  let docs2 := match sector_id with
    | some s => docs.filter (fun d => ¬ (d.source = source ∧ d.sector_id = s))
    | none => docs.filter (fun d => ¬ d.source = source)
  let removed := initial_count - docs2.length
  if 0 < removed then (docs2, DeleteOutcome.ok removed)
  else (docs2, DeleteOutcome.notFound)

/-- One entry of the citation list built by `_extract_sources`. -/
structure SourceEntry where
  name : String
  score : PVal
  excerpt : String

/-- The string stored in a `PVal` (the dict values read by
`_extract_sources` are always strings in the program; Python would use
the raw value). -/
def pvalStr : PVal → String
  | PVal.vstr s => s
  | _ => ""

/-- `source_name = doc.get("source", "Desconhecido")` (rag.py line 144). -/
def sourceNameOf (d : PDict) : String :=
  pvalStr (dictGet d "source" (PVal.vstr "Desconhecido"))

/-- `content = doc.get("content", "")` (rag.py line 152). -/
def contentOf (d : PDict) : String :=
  pvalStr (dictGet d "content" (PVal.vstr ""))

/-- `excerpt = content[:150] + "..." if len(content) > 150 else content`
(rag.py line 153). -/
def excerptOf (d : PDict) : String :=
  if 150 < (contentOf d).length then (contentOf d).take 150 ++ "..."
  else contentOf d

/-- The citation entry appended for a not-yet-seen source
(rag.py lines 156-162): note the score is read from the `"similarity"`
key with default `None`, exactly as in the source. -/
def buildEntry (d : PDict) : SourceEntry :=
  ⟨sourceNameOf d, dictGet d "similarity" PVal.vnull, excerptOf d⟩

/-- Loop of `_extract_sources` (rag.py lines 140-164) with the
`seen_sources` accumulator made explicit. -/
def extractSourcesAux : List PDict → List String → List SourceEntry
  | [], _ => []
  | d :: rest, seen =>
    if sourceNameOf d ∈ seen then extractSourcesAux rest seen
    else buildEntry d :: extractSourcesAux rest (sourceNameOf d :: seen)

/-- `OracleRAG._extract_sources` (rag.py lines 130-164). -/
def extract_sources (documentos : List PDict) : List SourceEntry :=
  extractSourcesAux documentos []

/-- A record of the persisted JSON store before construction of the
`Documento` dataclass: one JSON object, as parsed by `json.load`. -/
abbrev RawRecord : Type := List (String × PVal)

/-- `Documento` as actually held by the Python dataclass after
`Documento(**d)`: every field holds whatever value the record supplied,
because dataclasses perform no type validation. -/
structure DocumentoRaw where
  id : PVal
  content : PVal
  embedding : PVal
  source : PVal
  type : PVal
  upload_date : PVal
  chunk_index : PVal
  total_chunks : PVal
  page_number : PVal
  timestamp_start : PVal
  timestamp_end : PVal
  heading_context : PVal
  content_type : PVal
  sector_id : PVal

/-- The field names of the `Documento` dataclass. -/
def documentoFields : List String :=
  ["id", "content", "embedding", "source", "type", "upload_date",
   "chunk_index", "total_chunks", "page_number", "timestamp_start",
   "timestamp_end", "heading_context", "content_type", "sector_id"]

/-- The fields without a dataclass default. -/
def requiredFields : List String :=
  ["id", "content", "embedding", "source", "type", "upload_date",
   "chunk_index", "total_chunks"]

/-- Lookup of a key in a raw record. -/
def lookupKey (d : RawRecord) (k : String) : Option PVal :=
  match d.find? (fun kv => kv.1 = k) with
  | some kv => some kv.2
  | none => none

/-- `Documento(**d)` (database.py line 72): raises `TypeError` when `d`
has a key that is not a dataclass field or misses a field without a
default; otherwise constructs the record with no value validation,
filling absent optional fields with their defaults. -/
def mkDocumento (d : RawRecord) : Except String DocumentoRaw :=
  if d.any (fun kv => ¬ documentoFields.contains kv.1) then
    Except.error "unexpected keyword argument"
  else if requiredFields.any (fun k => (lookupKey d k).isNone) then
    Except.error "missing required positional argument"
  else
    Except.ok
      { id := (lookupKey d "id").getD PVal.vnull,
        content := (lookupKey d "content").getD PVal.vnull,
        embedding := (lookupKey d "embedding").getD PVal.vnull,
        source := (lookupKey d "source").getD PVal.vnull,
        type := (lookupKey d "type").getD PVal.vnull,
        upload_date := (lookupKey d "upload_date").getD PVal.vnull,
        chunk_index := (lookupKey d "chunk_index").getD PVal.vnull,
        total_chunks := (lookupKey d "total_chunks").getD PVal.vnull,
        page_number := (lookupKey d "page_number").getD PVal.vnull,
        timestamp_start := (lookupKey d "timestamp_start").getD PVal.vnull,
        timestamp_end := (lookupKey d "timestamp_end").getD PVal.vnull,
        heading_context := (lookupKey d "heading_context").getD PVal.vnull,
        content_type := (lookupKey d "content_type").getD (PVal.vstr "text"),
        sector_id := (lookupKey d "sector_id").getD (PVal.vstr "default") }

/-- The list comprehension `[Documento(**d) for d in dados]`
(database.py line 72): left to right, aborted by the first raising
record. -/
def mapParse : List RawRecord → Except String (List DocumentoRaw)
  | [] => Except.ok []
  | d :: rest =>
    match mkDocumento d with
    | Except.error e => Except.error e
    | Except.ok doc =>
      match mapParse rest with
      | Except.error e => Except.error e
      | Except.ok docs => Except.ok (doc :: docs)

/-- `KnowledgeBase._carregar_db` (database.py lines 64-77) on an
existing, JSON-parseable store file holding the records `dados`: the
whole comprehension runs under one `try`, so any raising record makes
the handler reset the collection to `[]`. -/
def carregar_db (dados : List RawRecord) : List DocumentoRaw :=
  match mapParse dados with
  | Except.ok docs => docs
  | Except.error _ => []

/-- A conversation-memory message (`ConversationBufferMemory`). -/
inductive Msg where
  | user (s : String) : Msg
  | ai (s : String) : Msg
deriving DecidableEq

/-- One event produced by the `chain.stream(...)` iterator inside
`responder`: a content chunk, or the provider raising mid-stream. -/
inductive StepEvent where
  | token (s : String) : StepEvent
  | providerError : StepEvent
deriving DecidableEq

/-- `resposta_completa` accumulation (`resposta_completa += token`). -/
def concatTokens (l : List String) : String :=
  l.foldl (fun a b => a ++ b) ""

/-- Generator semantics of the streaming loop of `responder`
(rag.py lines 199-212). `calls` is the number of times the consumer
advances the generator before abandoning it; each advance either
forwards one provider token, propagates a provider exception (skipping
the commit), or observes the end of the stream, at which point — and
only then — the two `add_*_message` calls append the turn to memory.
Abandoning the generator (calls exhausted) leaves memory untouched,
since `GeneratorExit` is raised at the suspended `yield`. -/
def runResponderGo (pergunta : String) (mem : List Msg) :
    List StepEvent → ℕ → String → List String → List String × List Msg
  | _, 0, _, yielded => (yielded.reverse, mem)
  | [], _ + 1, acc, yielded =>
      (yielded.reverse, mem ++ [Msg.user pergunta, Msg.ai acc])
  | StepEvent.providerError :: _, _ + 1, _, yielded => (yielded.reverse, mem)
  | StepEvent.token s :: rest, calls + 1, acc, yielded =>
      runResponderGo pergunta mem rest calls (acc ++ s) (s :: yielded)

/-- The memory-relevant behaviour of `OracleRAG.responder`
(rag.py lines 166-212): the retrieval and prompt-assembly prelude
(lines 177-197, modelled by `buscar` and `extract_sources` above)
never touches `_memory`; the function then streams and commits per
`runResponderGo`. Returns the tokens the consumer received and the
final memory. -/
def responder (pergunta : String) (mem : List Msg)
    (events : List StepEvent) (calls : ℕ) : List String × List Msg :=
  runResponderGo pergunta mem events calls "" []

/-! ### Lemmas about the stable descending sort -/

theorem mem_insertDesc {α : Type} {x y : α × ℚ} {l : List (α × ℚ)} :
    y ∈ insertDesc x l ↔ y = x ∨ y ∈ l := by
  induction l with
  | nil => simp [insertDesc]
  | cons z zs ih =>
    by_cases h : x.2 < z.2
    · simp only [insertDesc, if_pos h, List.mem_cons, ih]
      tauto
    · simp only [insertDesc, if_neg h, List.mem_cons]

theorem insertDesc_pairwise {α : Type} {x : α × ℚ} {l : List (α × ℚ)}
    (hl : List.Pairwise (fun a b => b.2 ≤ a.2) l) :
    List.Pairwise (fun a b => b.2 ≤ a.2) (insertDesc x l) := by
  induction l with
  | nil => simp [insertDesc]
  | cons z zs ih =>
    rcases hl with _ | ⟨hz, hzs⟩
    by_cases h : x.2 < z.2
    · simp only [insertDesc, if_pos h]
      refine List.Pairwise.cons ?_ (ih hzs)
      intro y hy
      rcases mem_insertDesc.mp hy with rfl | hy
      · exact le_of_lt h
      · exact hz y hy
    · simp only [insertDesc, if_neg h]
      refine List.Pairwise.cons ?_ (List.Pairwise.cons hz hzs)
      intro y hy
      rcases List.mem_cons.mp hy with rfl | hy
      · exact le_of_not_lt h
      · exact le_trans (hz y hy) (le_of_not_lt h)

theorem sortDesc_pairwise {α : Type} (l : List (α × ℚ)) :
    List.Pairwise (fun a b => b.2 ≤ a.2) (sortDesc l) := by
  induction l with
  | nil => simp [sortDesc]
  | cons x xs ih => exact insertDesc_pairwise ih

theorem insertDesc_perm {α : Type} (x : α × ℚ) (l : List (α × ℚ)) :
    List.Perm (insertDesc x l) (x :: l) := by
  induction l with
  | nil => simp [insertDesc]
  | cons z zs ih =>
    by_cases h : x.2 < z.2
    · simp only [insertDesc, if_pos h]
      exact List.Perm.trans (List.Perm.cons z ih) (List.Perm.swap x z zs)
    · simp [insertDesc, if_neg h]

theorem sortDesc_perm {α : Type} (l : List (α × ℚ)) : List.Perm (sortDesc l) l := by
  induction l with
  | nil => simp [sortDesc]
  | cons x xs ih =>
    exact List.Perm.trans (insertDesc_perm x (sortDesc xs)) (List.Perm.cons x ih)

theorem filter_insertDesc {α : Type} (s : ℚ) (x : α × ℚ) (l : List (α × ℚ)) :
    (insertDesc x l).filter (fun y => y.2 = s) =
      if x.2 = s then x :: l.filter (fun y => y.2 = s)
      else l.filter (fun y => y.2 = s) := by
  induction l with
  | nil => by_cases h : x.2 = s <;> simp [insertDesc, h]
  | cons z zs ih =>
    by_cases hlt : x.2 < z.2
    · simp only [insertDesc, if_pos hlt, List.filter_cons]
      by_cases hx : x.2 = s
      · have hz : ¬ z.2 = s := by
          intro hzs
          exact absurd (hzs ▸ hlt) (by simp [hx])
        simp [hx, hz, ih]
      · simp [hx, ih]
    · simp only [insertDesc, if_neg hlt, List.filter_cons]
      by_cases hx : x.2 = s <;> simp [hx]

theorem sortDesc_filter_score {α : Type} (s : ℚ) (l : List (α × ℚ)) :
    (sortDesc l).filter (fun y => y.2 = s) = l.filter (fun y => y.2 = s) := by
  induction l with
  | nil => simp [sortDesc]
  | cons x xs ih =>
    show (insertDesc x (sortDesc xs)).filter _ = _
    rw [filter_insertDesc, List.filter_cons]
    by_cases hx : x.2 = s <;> simp [hx, ih]

/-! ### Lemmas about the ranking policy -/

theorem rankResults_sublist_sortDesc (scored : List (Documento × ℚ))
    (k : ℕ) (threshold : ℚ) :
    List.Sublist (rankResults scored k threshold) (sortDesc scored) := by
  unfold rankResults
  by_cases h : ((sortDesc scored).filter (fun x => threshold ≤ x.2)).length < 3
      ∧ 3 ≤ (sortDesc scored).length
  · simpa [h] using List.take_sublist k (sortDesc scored)
  · simp only [if_neg h]
    exact List.Sublist.trans
      (List.take_sublist k _)
      (List.filter_sublist (sortDesc scored))

theorem rankResults_pairwise (scored : List (Documento × ℚ))
    (k : ℕ) (threshold : ℚ) :
    List.Pairwise (fun a b => b.2 ≤ a.2) (rankResults scored k threshold) :=
  List.Pairwise.sublist (rankResults_sublist_sortDesc scored k threshold)
    (sortDesc_pairwise scored)

theorem rankResults_filter_score_sublist (scored : List (Documento × ℚ))
    (k : ℕ) (threshold : ℚ) (s : ℚ) :
    List.Sublist
      ((rankResults scored k threshold).filter (fun x => x.2 = s))
      (scored.filter (fun x => x.2 = s)) := by
  have h1 := List.Sublist.filter (fun x : Documento × ℚ => decide (x.2 = s))
    (rankResults_sublist_sortDesc scored k threshold)
  rwa [sortDesc_filter_score] at h1

/-! ### Sector isolation helper -/

theorem sectorFilter_erase_other {A B : String} (hAB : A ≠ B)
    (docs : List Documento) :
    sectorFilter (some B) (docs.filter (fun d => ¬ d.sector_id = A)) =
      sectorFilter (some B) docs := by
  simp only [sectorFilter]
  rw [List.filter_filter]
  apply List.filter_congr
  intro d _
  by_cases h : d.sector_id = B
  · simp [h, Ne.symm hAB]
  · simp [h]

/-! ### Sample values used by witnesses -/

def docA : Documento :=
  { id := "a0", content := "alpha content", embedding := [1],
    source := "a.pdf", type := "pdf", upload_date := "2024-01-01T00:00:00",
    chunk_index := 0, total_chunks := 1, sector_id := "A" }

def docB : Documento :=
  { docA with
    id := "b0", source := "b.pdf", embedding := [2], sector_id := "B" }

def embedQ0 : String → List ℚ := fun _ => [1]

def sim0 : List ℚ → List ℚ → ℚ := fun _ e => e.headD 0

def split0 : String → List String := fun t => if t = "" then [] else [t]

def embed0 : List String → List (List ℚ) := fun cs => cs.map (fun _ => [1])

/-! ### Claims -/

/-- C1. Sector isolation: a chunk stored under sector A is never in the
candidate set of `buscar` filtered by B; `buscar` and `get_estatisticas`
filtered by B are insensitive to deleting every A-record; and
`limpar_base` and `remover_documento` invoked with filter B leave the
A-records (with their order) unchanged in the collection. -/
theorem c1_sector_isolation (embedQuery : String → List ℚ)
    (sim : List ℚ → List ℚ → ℚ) (docs : List Documento)
    (pergunta fonte : String) (k : ℕ) (threshold : ℚ)
    (A B : String) (hAB : A ≠ B) :
    (∀ d ∈ docs, d.sector_id = A → d ∉ sectorFilter (some B) docs)
    ∧ buscar embedQuery sim docs pergunta (some B) k threshold =
        buscar embedQuery sim (docs.filter (fun d => ¬ d.sector_id = A))
          pergunta (some B) k threshold
    ∧ get_estatisticas (some B) docs =
        get_estatisticas (some B) (docs.filter (fun d => ¬ d.sector_id = A))
    ∧ (limpar_base (some B) docs).1.filter (fun d => d.sector_id = A) =
        docs.filter (fun d => d.sector_id = A)
    ∧ (remover_documento fonte (some B) docs).1.filter
          (fun d => d.sector_id = A) =
        docs.filter (fun d => d.sector_id = A) := by
  refine ⟨?_, ?_, ?_, ?_, ?_⟩
  · intro d _ hA hmem
    simp only [sectorFilter, List.mem_filter, decide_eq_true_eq] at hmem
    exact hAB (hA ▸ hmem.2)
  · unfold buscar
    rw [sectorFilter_erase_other hAB docs]
  · unfold get_estatisticas
    rw [sectorFilter_erase_other hAB docs]
  · simp only [limpar_base]
    rw [List.filter_filter]
    apply List.filter_congr
    intro d _
    by_cases h : d.sector_id = A
    · simp [h, hAB]
    · simp [h]
  · simp only [remover_documento]
    rw [List.filter_filter]
    apply List.filter_congr
    intro d _
    by_cases h : d.sector_id = A
    · simp [h, hAB]
    · simp [h]

theorem c1_sector_isolation_witness :
    (docA ∈ ([docA, docB] : List Documento) → docA.sector_id = "A" →
      docA ∉ sectorFilter (some "B") [docA, docB])
    ∧ (limpar_base (some "B") [docA, docB]).1.filter
        (fun d => d.sector_id = "A") = [docA] := by
  have h := c1_sector_isolation embedQ0 sim0 [docA, docB] "q" "a.pdf" 5 0
    "A" "B" (by decide)
  refine ⟨fun hmem hA => h.1 docA hmem hA, ?_⟩
  rw [h.2.2.2.1]
  decide

/-- C10. When the sector filter leaves no candidate documents, `buscar`
returns the empty list at once and never invokes the embedding provider
on the query (the returned flag is `false`). -/
theorem c10_empty_sector_skips_embedding (embedQuery : String → List ℚ)
    (sim : List ℚ → List ℚ → ℚ) (docs : List Documento) (pergunta : String)
    (sector_id : Option String) (k : ℕ) (threshold : ℚ)
    (h : sectorFilter sector_id docs = []) :
    buscar embedQuery sim docs pergunta sector_id k threshold = ([], false) := by
  simp [buscar, h]

theorem c10_empty_sector_skips_embedding_witness :
    buscar embedQ0 sim0 [docA, docB] "q" (some "C") 5 0 = ([], false) :=
  c10_empty_sector_skips_embedding embedQ0 sim0 [docA, docB] "q" (some "C")
    5 0 (by decide)

/-- C7. When chunking yields no chunks, `adicionar_documento` returns 0,
leaves the collection unchanged, and neither the embedding provider nor
`_salvar_db` is invoked. -/
theorem c7_empty_input_ingestion (split : String → List String)
    (embed : List String → List (List ℚ)) (now : String)
    (docs : List Documento) (texto fonte tipo sector_id : String)
    (h : split texto = []) :
    adicionar_documento split embed now docs texto fonte tipo sector_id =
      ⟨docs, 0, false, false⟩ := by
  simp [adicionar_documento, h]

theorem c7_empty_input_ingestion_witness :
    adicionar_documento split0 embed0 "t0" [docA] "" "f.pdf" "pdf" "A" =
      ⟨[docA], 0, false, false⟩ :=
  c7_empty_input_ingestion split0 embed0 "t0" [docA] "" "f.pdf" "pdf" "A"
    (by decide)

/-- The chunks of `docs` matching the delete request. -/
def matchingChunks (docs : List Documento) (source : String)
    (sector_id : Option String) : List Documento :=
  match sector_id with
  | some s => docs.filter (fun d => d.source = source ∧ d.sector_id = s)
  | none => docs.filter (fun d => d.source = source)

theorem delete_core (f : Documento → Bool) (docs : List Documento) :
    docs.length - (docs.filter (fun d => !(f d))).length =
      (docs.filter f).length := by
  have h := List.length_eq_length_filter_add (l := docs) f
  omega

/-- C6. The delete endpoint reports the number of chunks actually
removed: a 404 outcome coincides with no stored chunk matching the
source and sector filter (and leaves the collection unchanged), while a
success outcome carries exactly the positive count of matching chunks. -/
theorem c6_remove_reports_count (docs : List Documento) (source : String)
    (sector_id : Option String) :
    ((delete_document docs source sector_id).2 = DeleteOutcome.notFound ↔
        matchingChunks docs source sector_id = [])
    ∧ (∀ n, (delete_document docs source sector_id).2 = DeleteOutcome.ok n →
        n = (matchingChunks docs source sector_id).length ∧ 0 < n)
    ∧ ((delete_document docs source sector_id).2 = DeleteOutcome.notFound →
        (delete_document docs source sector_id).1 = docs) := by
  have main : ∀ f : Documento → Bool,
      ((if 0 < docs.length - (docs.filter (fun d => !(f d))).length then
          (docs.filter (fun d => !(f d)),
            DeleteOutcome.ok (docs.length - (docs.filter (fun d => !(f d))).length))
        else (docs.filter (fun d => !(f d)), DeleteOutcome.notFound)).2 =
            DeleteOutcome.notFound ↔ docs.filter f = [])
      ∧ (∀ n, (if 0 < docs.length - (docs.filter (fun d => !(f d))).length then
          (docs.filter (fun d => !(f d)),
            DeleteOutcome.ok (docs.length - (docs.filter (fun d => !(f d))).length))
        else (docs.filter (fun d => !(f d)), DeleteOutcome.notFound)).2 =
            DeleteOutcome.ok n → n = (docs.filter f).length ∧ 0 < n)
      ∧ ((if 0 < docs.length - (docs.filter (fun d => !(f d))).length then
          (docs.filter (fun d => !(f d)),
            DeleteOutcome.ok (docs.length - (docs.filter (fun d => !(f d))).length))
        else (docs.filter (fun d => !(f d)), DeleteOutcome.notFound)).1 = docs ∨
          0 < docs.length - (docs.filter (fun d => !(f d))).length) := by
    intro f
    have hcore := delete_core f docs
    by_cases h : 0 < docs.length - (docs.filter (fun d => !(f d))).length
    · refine ⟨?_, ?_, Or.inr h⟩
      · simp only [if_pos h]
        constructor
        · intro hc; exact absurd hc (by simp)
        · intro hnil
          rw [hnil] at hcore
          simp only [List.length_nil] at hcore
          omega
      · intro n hn
        simp only [if_pos h] at hn
        have hn2 : n = docs.length - (docs.filter (fun d => !(f d))).length := by
          cases hn; rfl
        constructor <;> omega
    · have hM : (docs.filter f).length = 0 := by omega
      have hnilf : docs.filter f = [] := List.length_eq_zero.mp hM
      have hself : docs.filter (fun d => !(f d)) = docs := by
        apply List.filter_eq_self.mpr
        intro d hd
        have hfd : f d = false := by
          by_contra hff
          have : d ∈ docs.filter f :=
            List.mem_filter.mpr ⟨hd, by simpa using hff⟩
          simp [hnilf] at this
        simp [hfd]
      refine ⟨?_, ?_, Or.inl (by simp only [if_neg h]; exact hself)⟩
      · simp only [if_neg h]
        simpa using hnilf
      · intro n hn
        simp only [if_neg h] at hn
        exact absurd hn (by simp)
  rcases sector_id with _ | s
  · have hmain := main (fun d => decide (d.source = source))
    simp only [delete_document, matchingChunks, decide_not] at *
    exact ⟨hmain.1, hmain.2.1, fun hnf => by
      rcases hmain.2.2 with hd | hpos
      · exact hd
      · exact absurd hnf (by rw [if_pos hpos]; simp)⟩
  · have hmain := main (fun d => decide (d.source = source ∧ d.sector_id = s))
    simp only [delete_document, matchingChunks, decide_not] at *
    exact ⟨hmain.1, hmain.2.1, fun hnf => by
      rcases hmain.2.2 with hd | hpos
      · exact hd
      · exact absurd hnf (by rw [if_pos hpos]; simp)⟩

theorem c6_remove_reports_count_witness :
    (1 = (matchingChunks [docA, docB] "a.pdf" (some "A")).length ∧ 0 < 1)
    ∧ (delete_document [docA, docB] "zzz" none).2 = DeleteOutcome.notFound := by
  refine ⟨(c6_remove_reports_count [docA, docB] "a.pdf" (some "A")).2.1 1 ?_, ?_⟩
  · decide
  · exact (c6_remove_reports_count [docA, docB] "zzz" none).1.mpr (by decide)

/-- The scored candidate list built inside `buscar` (database.py
lines 163-167): the sector-filtered records paired with their
similarity scores. -/
def buscarScored (embedQuery : String → List ℚ) (sim : List ℚ → List ℚ → ℚ)
    (docs : List Documento) (pergunta : String) (sector_id : Option String) :
    List (Documento × ℚ) :=
  (sectorFilter sector_id docs).map
    (fun d => (d, sim (embedQuery pergunta) d.embedding))

theorem buscar_eq_rank (embedQuery : String → List ℚ)
    (sim : List ℚ → List ℚ → ℚ) (docs : List Documento) (pergunta : String)
    (sector_id : Option String) (k : ℕ) (threshold : ℚ)
    (h : ¬ (sectorFilter sector_id docs).isEmpty = true) :
    buscar embedQuery sim docs pergunta sector_id k threshold =
      ((rankResults (buscarScored embedQuery sim docs pergunta sector_id)
          k threshold).map projectDoc, true) := by
  simp [buscar, buscarScored, h]

theorem sortDesc_length {α : Type} (l : List (α × ℚ)) :
    (sortDesc l).length = l.length :=
  (sortDesc_perm l).length_eq

/-- C2. Threshold fallback of `buscar`: after scoring and sorting the
requested sector's candidates, scores below the threshold are dropped;
when fewer than 3 candidates survive while at least 3 existed, the
unfiltered top-k is returned, otherwise the filtered top-k. With
exactly 3 candidates all below the threshold `buscar` still returns
`min k 3` results, while with 2 candidates both below the threshold it
returns the (empty) filtered result. -/
theorem c2_threshold_fallback (embedQuery : String → List ℚ)
    (sim : List ℚ → List ℚ → ℚ) (docs : List Documento) (pergunta : String)
    (sector_id : Option String) (k : ℕ) (threshold : ℚ) :
    (¬ (sectorFilter sector_id docs).isEmpty = true →
      ((sortDesc (buscarScored embedQuery sim docs pergunta sector_id)).filter
          (fun x => threshold ≤ x.2)).length < 3 →
      3 ≤ (buscarScored embedQuery sim docs pergunta sector_id).length →
      (buscar embedQuery sim docs pergunta sector_id k threshold).1 =
        ((sortDesc (buscarScored embedQuery sim docs pergunta sector_id)).take
            k).map projectDoc)
    ∧ (¬ (sectorFilter sector_id docs).isEmpty = true →
      (3 ≤ ((sortDesc (buscarScored embedQuery sim docs pergunta
              sector_id)).filter (fun x => threshold ≤ x.2)).length ∨
        (buscarScored embedQuery sim docs pergunta sector_id).length < 3) →
      (buscar embedQuery sim docs pergunta sector_id k threshold).1 =
        (((sortDesc (buscarScored embedQuery sim docs pergunta
              sector_id)).filter (fun x => threshold ≤ x.2)).take k).map
          projectDoc)
    ∧ ((buscarScored embedQuery sim docs pergunta sector_id).length = 3 →
      (∀ x ∈ buscarScored embedQuery sim docs pergunta sector_id,
        x.2 < threshold) →
      ((buscar embedQuery sim docs pergunta sector_id k threshold).1).length =
        min k 3)
    ∧ ((buscarScored embedQuery sim docs pergunta sector_id).length = 2 →
      (∀ x ∈ buscarScored embedQuery sim docs pergunta sector_id,
        x.2 < threshold) →
      (buscar embedQuery sim docs pergunta sector_id k threshold).1 = []) := by
  have hlen : (buscarScored embedQuery sim docs pergunta sector_id).length =
      (sectorFilter sector_id docs).length := List.length_map _ _
  have hsortlen := sortDesc_length
    (buscarScored embedQuery sim docs pergunta sector_id)
  refine ⟨?_, ?_, ?_, ?_⟩
  · intro hne hf hn
    rw [buscar_eq_rank embedQuery sim docs pergunta sector_id k threshold hne]
    unfold rankResults
    have hcond : (((sortDesc (buscarScored embedQuery sim docs pergunta
        sector_id)).filter (fun x => threshold ≤ x.2)).length < 3 ∧
        3 ≤ (sortDesc (buscarScored embedQuery sim docs pergunta
          sector_id)).length) := ⟨hf, by omega⟩
    simp only [if_pos hcond]
  · intro hne hor
    rw [buscar_eq_rank embedQuery sim docs pergunta sector_id k threshold hne]
    unfold rankResults
    have hcond : ¬ (((sortDesc (buscarScored embedQuery sim docs pergunta
        sector_id)).filter (fun x => threshold ≤ x.2)).length < 3 ∧
        3 ≤ (sortDesc (buscarScored embedQuery sim docs pergunta
          sector_id)).length) := by
      rcases hor with h3 | hlt
      · intro hc; omega
      · intro hc; omega
    simp only [if_neg hcond]
  · intro h3 hb
    have hne : ¬ (sectorFilter sector_id docs).isEmpty = true := by
      rw [List.isEmpty_iff_length_eq_zero]
      omega
    have hfnil : (sortDesc (buscarScored embedQuery sim docs pergunta
        sector_id)).filter (fun x => threshold ≤ x.2) = [] := by
      apply List.filter_eq_nil_iff.mpr
      intro x hx
      have hx2 : x ∈ buscarScored embedQuery sim docs pergunta sector_id :=
        (sortDesc_perm _).mem_iff.mp hx
      simpa using not_le_of_lt (hb x hx2)
    rw [buscar_eq_rank embedQuery sim docs pergunta sector_id k threshold hne]
    unfold rankResults
    have hcond : (((sortDesc (buscarScored embedQuery sim docs pergunta
        sector_id)).filter (fun x => threshold ≤ x.2)).length < 3 ∧
        3 ≤ (sortDesc (buscarScored embedQuery sim docs pergunta
          sector_id)).length) := by
      rw [hfnil]
      constructor
      · simp
      · omega
    simp only [if_pos hcond]
    rw [List.length_map, List.length_take, hsortlen, h3]
  · intro h2 hb
    have hne : ¬ (sectorFilter sector_id docs).isEmpty = true := by
      rw [List.isEmpty_iff_length_eq_zero]
      omega
    have hfnil : (sortDesc (buscarScored embedQuery sim docs pergunta
        sector_id)).filter (fun x => threshold ≤ x.2) = [] := by
      apply List.filter_eq_nil_iff.mpr
      intro x hx
      have hx2 : x ∈ buscarScored embedQuery sim docs pergunta sector_id :=
        (sortDesc_perm _).mem_iff.mp hx
      simpa using not_le_of_lt (hb x hx2)
    rw [buscar_eq_rank embedQuery sim docs pergunta sector_id k threshold hne]
    unfold rankResults
    have hcond : ¬ (((sortDesc (buscarScored embedQuery sim docs pergunta
        sector_id)).filter (fun x => threshold ≤ x.2)).length < 3 ∧
        3 ≤ (sortDesc (buscarScored embedQuery sim docs pergunta
          sector_id)).length) := by
      intro hc; omega
    simp only [if_neg hcond]
    rw [hfnil]
    simp

def docC : Documento := { docA with id := "c0", source := "c.pdf", embedding := [2] }

def docD : Documento := { docA with id := "d0", source := "d.pdf", embedding := [3] }

theorem c2_threshold_fallback_witness :
    ((buscar embedQ0 sim0 [docA, docC, docD] "q" (some "A") 5 10).1).length =
      min 5 3
    ∧ (buscar embedQ0 sim0 [docA, docC] "q" (some "A") 5 10).1 = [] :=
  ⟨(c2_threshold_fallback embedQ0 sim0 [docA, docC, docD] "q" (some "A")
      5 10).2.2.1 (by decide) (by decide),
   (c2_threshold_fallback embedQ0 sim0 [docA, docC] "q" (some "A")
      5 10).2.2.2 (by decide) (by decide)⟩

/-- C8. Stable descending ranking: the candidate selection of `buscar`
is ordered by non-increasing score, and for every score value the
selected candidates with that score form a sublist of the scored
candidate list in its stored (insertion) order, so equal-scored
candidates keep their original relative order. -/
theorem c8_stable_descending_ranking (embedQuery : String → List ℚ)
    (sim : List ℚ → List ℚ → ℚ) (docs : List Documento) (pergunta : String)
    (sector_id : Option String) (k : ℕ) (threshold : ℚ) :
    (¬ (sectorFilter sector_id docs).isEmpty = true →
      (buscar embedQuery sim docs pergunta sector_id k threshold).1 =
        (rankResults (buscarScored embedQuery sim docs pergunta sector_id)
            k threshold).map projectDoc)
    ∧ List.Pairwise (fun a b => b.2 ≤ a.2)
        (rankResults (buscarScored embedQuery sim docs pergunta sector_id)
          k threshold)
    ∧ ∀ s : ℚ, List.Sublist
        ((rankResults (buscarScored embedQuery sim docs pergunta sector_id)
            k threshold).filter (fun x => x.2 = s))
        ((buscarScored embedQuery sim docs pergunta sector_id).filter
          (fun x => x.2 = s)) :=
  ⟨fun hne => by
      rw [buscar_eq_rank embedQuery sim docs pergunta sector_id k threshold hne],
   rankResults_pairwise _ _ _,
   fun s => rankResults_filter_score_sublist _ _ _ s⟩

theorem c8_stable_descending_ranking_witness :
    (buscar embedQ0 sim0 [docA, docC, docD] "q" (some "A") 2 0).1 =
      (rankResults (buscarScored embedQ0 sim0 [docA, docC, docD] "q"
          (some "A")) 2 0).map projectDoc :=
  (c8_stable_descending_ranking embedQ0 sim0 [docA, docC, docD] "q"
    (some "A") 2 0).1 (by decide)

/-- C9. Chunk-index invariant: when `adicionar_documento` returns
`n > 0` (and the embedding provider returned one vector per chunk, as
its interface requires), exactly `n` records were appended, all sharing
`source`, `upload_date` and `total_chunks = n`, with `chunk_index`
covering `0..n-1` exactly once, in order. -/
theorem c9_chunk_index_invariant (split : String → List String)
    (embed : List String → List (List ℚ)) (now : String)
    (docs : List Documento) (texto fonte tipo sector_id : String)
    (hlen : (embed (split texto)).length = (split texto).length)
    (hpos : 0 <
      (adicionar_documento split embed now docs texto fonte tipo sector_id).ret) :
    ∃ novos : List Documento,
      (adicionar_documento split embed now docs texto fonte tipo
          sector_id).documentos = docs ++ novos
      ∧ novos.length =
          (adicionar_documento split embed now docs texto fonte tipo
            sector_id).ret
      ∧ (∀ d ∈ novos, d.source = fonte ∧ d.upload_date = now ∧
          d.total_chunks =
            (adicionar_documento split embed now docs texto fonte tipo
              sector_id).ret)
      ∧ novos.map (fun d => d.chunk_index) =
          List.range
            ((adicionar_documento split embed now docs texto fonte tipo
              sector_id).ret) := by
  by_cases hsplit : (split texto).isEmpty = true
  · exfalso
    have : adicionar_documento split embed now docs texto fonte tipo
        sector_id = ⟨docs, 0, false, false⟩ := by
      simp [adicionar_documento, hsplit]
    rw [this] at hpos
    exact absurd hpos (by simp)
  · have hres : adicionar_documento split embed now docs texto fonte tipo
        sector_id =
        ⟨docs ++ ((split texto).zip (embed (split texto))).enum.map (fun p =>
            { id := fonte ++ "_" ++ now ++ "_" ++ toString p.1,
              content := p.2.1,
              embedding := p.2.2,
              source := fonte,
              type := tipo,
              upload_date := now,
              chunk_index := p.1,
              total_chunks := (split texto).length,
              sector_id := sector_id : Documento }),
          (((split texto).zip (embed (split texto))).enum.map (fun p =>
            { id := fonte ++ "_" ++ now ++ "_" ++ toString p.1,
              content := p.2.1,
              embedding := p.2.2,
              source := fonte,
              type := tipo,
              upload_date := now,
              chunk_index := p.1,
              total_chunks := (split texto).length,
              sector_id := sector_id : Documento })).length,
          true, true⟩ := by
      simp only [adicionar_documento, hsplit]
      rfl
    have hnlen : (((split texto).zip (embed (split texto))).enum.map (fun p =>
        { id := fonte ++ "_" ++ now ++ "_" ++ toString p.1,
          content := p.2.1,
          embedding := p.2.2,
          source := fonte,
          type := tipo,
          upload_date := now,
          chunk_index := p.1,
          total_chunks := (split texto).length,
          sector_id := sector_id : Documento })).length =
        (split texto).length := by
      rw [List.length_map, List.enum_length, List.length_zip, hlen]
      exact min_self _
    refine ⟨((split texto).zip (embed (split texto))).enum.map (fun p =>
        { id := fonte ++ "_" ++ now ++ "_" ++ toString p.1,
          content := p.2.1,
          embedding := p.2.2,
          source := fonte,
          type := tipo,
          upload_date := now,
          chunk_index := p.1,
          total_chunks := (split texto).length,
          sector_id := sector_id : Documento }), ?_, ?_, ?_, ?_⟩
    · rw [hres]
    · rw [hres]
    · intro d hd
      rcases List.mem_map.mp hd with ⟨p, _, rfl⟩
      exact ⟨rfl, rfl, by rw [hres]; exact hnlen.symm⟩
    · rw [hres, List.map_map]
      have hcomp : ((fun d : Documento => d.chunk_index) ∘ (fun p : ℕ × (String × List ℚ) =>
          { id := fonte ++ "_" ++ now ++ "_" ++ toString p.1,
            content := p.2.1,
            embedding := p.2.2,
            source := fonte,
            type := tipo,
            upload_date := now,
            chunk_index := p.1,
            total_chunks := (split texto).length,
            sector_id := sector_id : Documento })) = Prod.fst := by
        funext p
        rfl
      rw [hcomp, List.enum_map_fst, hnlen, List.length_zip, hlen, min_self]

theorem c9_chunk_index_invariant_witness :
    ∃ novos : List Documento,
      (adicionar_documento split0 embed0 "t0" [docB] "hello" "f.pdf" "pdf"
          "A").documentos = [docB] ++ novos
      ∧ novos.length =
          (adicionar_documento split0 embed0 "t0" [docB] "hello" "f.pdf" "pdf"
            "A").ret
      ∧ (∀ d ∈ novos, d.source = "f.pdf" ∧ d.upload_date = "t0" ∧
          d.total_chunks =
            (adicionar_documento split0 embed0 "t0" [docB] "hello" "f.pdf"
              "pdf" "A").ret)
      ∧ novos.map (fun d => d.chunk_index) =
          List.range
            ((adicionar_documento split0 embed0 "t0" [docB] "hello" "f.pdf"
              "pdf" "A").ret) :=
  c9_chunk_index_invariant split0 embed0 "t0" [docB] "hello" "f.pdf" "pdf" "A"
    (by decide) (by decide)

theorem concatTokens_foldl (ts : List String) :
    ∀ acc : String, ts.foldl (fun a b => a ++ b) acc = acc ++ concatTokens ts := by
  induction ts with
  | nil =>
    intro acc
    simp [concatTokens]
  | cons t ts ih =>
    intro acc
    show ts.foldl (fun a b => a ++ b) (acc ++ t) = acc ++ concatTokens (t :: ts)
    rw [ih (acc ++ t)]
    show acc ++ t ++ concatTokens ts = acc ++ ts.foldl (fun a b => a ++ b) ("" ++ t)
    rw [ih ("" ++ t)]
    simp [String.append_assoc]

theorem runResponderGo_completed (pergunta : String) (mem : List Msg)
    (toks : List String) :
    ∀ (calls : ℕ) (acc : String) (yielded : List String),
      toks.length < calls →
      runResponderGo pergunta mem (toks.map StepEvent.token) calls acc yielded =
        (yielded.reverse ++ toks,
          mem ++ [Msg.user pergunta, Msg.ai (acc ++ concatTokens toks)]) := by
  induction toks with
  | nil =>
    intro calls acc yielded hc
    rcases calls with _ | c
    · omega
    · simp [runResponderGo, concatTokens]
  | cons t ts ih =>
    intro calls acc yielded hc
    rcases calls with _ | c
    · omega
    · show runResponderGo pergunta mem (ts.map StepEvent.token) c (acc ++ t)
          (t :: yielded) = _
      rw [ih c (acc ++ t) (t :: yielded) (by simpa using hc)]
      rw [List.reverse_cons, List.append_assoc]
      have hstr : acc ++ t ++ concatTokens ts = acc ++ concatTokens (t :: ts) := by
        have := concatTokens_foldl ts
        show acc ++ t ++ concatTokens ts =
          acc ++ (t :: ts).foldl (fun a b => a ++ b) ""
        show acc ++ t ++ concatTokens ts =
          acc ++ ts.foldl (fun a b => a ++ b) ("" ++ t)
        rw [this ("" ++ t)]
        simp [String.append_assoc]
      rw [hstr]
      simp

theorem runResponderGo_abandoned (pergunta : String) (mem : List Msg) :
    ∀ (events : List StepEvent) (calls : ℕ) (acc : String)
      (yielded : List String), calls ≤ events.length →
      (runResponderGo pergunta mem events calls acc yielded).2 = mem := by
  intro events
  induction events with
  | nil =>
    intro calls acc yielded hc
    have : calls = 0 := by simpa using hc
    subst this
    rfl
  | cons e rest ih =>
    intro calls acc yielded hc
    rcases calls with _ | c
    · cases e <;> rfl
    · cases e with
      | providerError => rfl
      | token s => exact ih c (acc ++ s) (s :: yielded) (by simpa using hc)

theorem runResponderGo_error (pergunta : String) (mem : List Msg) :
    ∀ (events : List StepEvent) (calls : ℕ) (acc : String)
      (yielded : List String), StepEvent.providerError ∈ events →
      (runResponderGo pergunta mem events calls acc yielded).2 = mem := by
  intro events
  induction events with
  | nil =>
    intro calls acc yielded hc
    simp at hc
  | cons e rest ih =>
    intro calls acc yielded hc
    rcases calls with _ | c
    · cases e <;> rfl
    · cases e with
      | providerError => rfl
      | token s =>
        have hr : StepEvent.providerError ∈ rest := by
          rcases List.mem_cons.mp hc with h | h
          · exact absurd h (by simp)
          · exact h
        exact ih c (acc ++ s) (s :: yielded) hr

/-- C3. Session-commit atomicity of `responder`: when the provider
stream is fully consumed and completes normally, the conversation
memory is appended with exactly the user message and the accumulated
assistant response; when the provider raises mid-stream, or the
consumer abandons the generator before observing the end of the
stream, the memory is exactly as before the call. -/
theorem c3_session_commit_atomicity (pergunta : String) (mem : List Msg)
    (events : List StepEvent) (toks : List String) (calls : ℕ) :
    (events = toks.map StepEvent.token → events.length < calls →
      responder pergunta mem events calls =
        (toks, mem ++ [Msg.user pergunta, Msg.ai (concatTokens toks)]))
    ∧ (StepEvent.providerError ∈ events →
      (responder pergunta mem events calls).2 = mem)
    ∧ (calls ≤ events.length →
      (responder pergunta mem events calls).2 = mem) := by
  refine ⟨?_, ?_, ?_⟩
  · intro hev hc
    subst hev
    unfold responder
    rw [runResponderGo_completed pergunta mem toks calls "" []
      (by simpa using hc)]
    simp [String.empty_append]
  · intro herr
    exact runResponderGo_error pergunta mem events calls "" [] herr
  · intro hc
    exact runResponderGo_abandoned pergunta mem events calls "" [] hc

theorem c3_session_commit_atomicity_witness :
    responder "q" [Msg.user "old", Msg.ai "reply"]
        [StepEvent.token "He", StepEvent.token "llo"] 3 =
      (["He", "llo"],
        [Msg.user "old", Msg.ai "reply", Msg.user "q", Msg.ai "Hello"])
    ∧ (responder "q" [Msg.user "old", Msg.ai "reply"]
        [StepEvent.token "He", StepEvent.providerError] 9).2 =
      [Msg.user "old", Msg.ai "reply"]
    ∧ (responder "q" [Msg.user "old", Msg.ai "reply"]
        [StepEvent.token "He", StepEvent.token "llo"] 2).2 =
      [Msg.user "old", Msg.ai "reply"] := by
  have h1 := (c3_session_commit_atomicity "q" [Msg.user "old", Msg.ai "reply"]
    [StepEvent.token "He", StepEvent.token "llo"] ["He", "llo"] 3).1
    (by decide) (by decide)
  have h2 := (c3_session_commit_atomicity "q" [Msg.user "old", Msg.ai "reply"]
    [StepEvent.token "He", StepEvent.providerError] [] 9).2.1 (by decide)
  have h3 := (c3_session_commit_atomicity "q" [Msg.user "old", Msg.ai "reply"]
    [StepEvent.token "He", StepEvent.token "llo"] [] 2).2.2 (by decide)
  refine ⟨?_, h2, h3⟩
  rw [h1]
  decide

/-! ### Lemmas about `_extract_sources` -/

theorem extractSourcesAux_spec : ∀ (docs : List PDict) (seen : List String),
    ∀ e ∈ extractSourcesAux docs seen,
      e.name ∉ seen ∧ ∃ d,
        docs.find? (fun x => sourceNameOf x = e.name) = some d ∧
        e = buildEntry d := by
  intro docs
  induction docs with
  | nil =>
    intro seen e he
    simp [extractSourcesAux] at he
  | cons d rest ih =>
    intro seen e he
    by_cases hseen : sourceNameOf d ∈ seen
    · simp only [extractSourcesAux, if_pos hseen] at he
      obtain ⟨hnot, d', hfind, hE⟩ := ih seen e he
      have hne : ¬ sourceNameOf d = e.name := by
        intro h
        exact hnot (h ▸ hseen)
      refine ⟨hnot, d', ?_, hE⟩
      rw [List.find?_cons_of_neg _ (by simpa using hne)]
      exact hfind
    · simp only [extractSourcesAux, if_neg hseen] at he
      rcases List.mem_cons.mp he with rfl | hrest
      · refine ⟨hseen, d, ?_, rfl⟩
        rw [List.find?_cons_of_pos _ (by simp [buildEntry])]
      · obtain ⟨hnot, d', hfind, hE⟩ := ih (sourceNameOf d :: seen) e hrest
        have hne : ¬ sourceNameOf d = e.name := by
          intro h
          exact hnot (h ▸ List.mem_cons_self _ _)
        refine ⟨fun hs => hnot (List.mem_cons_of_mem _ hs), d', ?_, hE⟩
        rw [List.find?_cons_of_neg _ (by simpa using hne)]
        exact hfind

theorem extractSourcesAux_names_nodup : ∀ (docs : List PDict)
    (seen : List String),
    ((extractSourcesAux docs seen).map (fun e => e.name)).Nodup ∧
    ∀ n ∈ (extractSourcesAux docs seen).map (fun e => e.name), n ∉ seen := by
  intro docs
  induction docs with
  | nil =>
    intro seen
    simp [extractSourcesAux]
  | cons d rest ih =>
    intro seen
    by_cases hseen : sourceNameOf d ∈ seen
    · simpa only [extractSourcesAux, if_pos hseen] using ih seen
    · obtain ⟨hnodup, hfresh⟩ := ih (sourceNameOf d :: seen)
      simp only [extractSourcesAux, if_neg hseen, List.map_cons]
      constructor
      · refine List.Nodup.cons ?_ hnodup
        intro hmem
        exact (hfresh _ hmem) (by simp [buildEntry])
      · intro n hn
        rcases List.mem_cons.mp hn with rfl | hn'
        · simpa [buildEntry] using hseen
        · intro hs
          exact (hfresh n hn') (List.mem_cons_of_mem _ hs)

theorem extractSourcesAux_names_mem : ∀ (docs : List PDict)
    (seen : List String) (n : String),
    n ∈ (extractSourcesAux docs seen).map (fun e => e.name) ↔
      (n ∈ docs.map sourceNameOf ∧ n ∉ seen) := by
  intro docs
  induction docs with
  | nil =>
    intro seen n
    simp [extractSourcesAux]
  | cons d rest ih =>
    intro seen n
    by_cases hseen : sourceNameOf d ∈ seen
    · simp only [extractSourcesAux, if_pos hseen, List.map_cons,
        List.mem_cons, ih]
      constructor
      · intro ⟨h1, h2⟩
        exact ⟨Or.inr h1, h2⟩
      · intro ⟨h1, h2⟩
        rcases h1 with rfl | h1
        · exact absurd hseen h2
        · exact ⟨h1, h2⟩
    · simp only [extractSourcesAux, if_neg hseen, List.map_cons,
        List.mem_cons, ih]
      constructor
      · intro h
        rcases h with h | ⟨h1, h2⟩
        · have : n = sourceNameOf d := by simpa [buildEntry] using h
          subst this
          exact ⟨Or.inl rfl, hseen⟩
        · exact ⟨Or.inr h1, fun hs => h2 (Or.inr hs)⟩
      · intro ⟨h1, h2⟩
        rcases h1 with rfl | h1
        · exact Or.inl (by simp [buildEntry])
        · by_cases hd : n = sourceNameOf d
          · exact Or.inl (by simp [buildEntry, hd])
          · exact Or.inr ⟨h1, fun hs => Or.elim hs hd h2⟩

theorem dictGet_similarity_projectDoc (p : Documento × ℚ) :
    dictGet (projectDoc p) "similarity" PVal.vnull = PVal.vnull := rfl

/-- C4 as stated is false on the code: a citation entry does not carry
the originating retrieval score. `buscar` stores the score under the
key `"score"`, while `_extract_sources` reads `doc.get("similarity",
None)`; at this concrete one-document input with retrieval score 9/10
the produced citation carries `None`, not 9/10 (dedup and excerpt are
as claimed). -/
theorem c4_counterexample :
    extract_sources [projectDoc (docA, 9/10)] =
      [⟨"a.pdf", PVal.vnull, "alpha content"⟩]
    ∧ PVal.vnull ≠ PVal.vnum (9/10) :=
  ⟨rfl, fun h => PVal.noConfusion h⟩

/-- C4 amended. `_extract_sources` produces exactly one citation entry
per distinct source name, the first occurrence in ranked order winning:
the entry is built from the first document carrying its source name,
its excerpt is that document's content truncated to 150 characters with
an appended ellipsis when longer, and its score is read from the
`"similarity"` key (default `None`) — a key `buscar` results never
contain, so every citation built from `buscar` output carries `None`
rather than the originating retrieval score. -/
theorem c4_citation_contract (documentos : List PDict)
    (scored : List (Documento × ℚ)) :
    ((extract_sources documentos).map (fun e => e.name)).Nodup
    ∧ (∀ n, n ∈ (extract_sources documentos).map (fun e => e.name) ↔
        n ∈ documentos.map sourceNameOf)
    ∧ (∀ e ∈ extract_sources documentos, ∃ d,
        documentos.find? (fun x => sourceNameOf x = e.name) = some d ∧
        e.name = sourceNameOf d ∧ e.excerpt = excerptOf d ∧
        e.score = dictGet d "similarity" PVal.vnull)
    ∧ (∀ e ∈ extract_sources (scored.map projectDoc),
        e.score = PVal.vnull) := by
  refine ⟨(extractSourcesAux_names_nodup documentos []).1, ?_, ?_, ?_⟩
  · intro n
    rw [extract_sources, extractSourcesAux_names_mem]
    simp
  · intro e he
    obtain ⟨-, d, hfind, hE⟩ := extractSourcesAux_spec documentos [] e he
    exact ⟨d, hfind, by rw [hE]; rfl, by rw [hE]; rfl, by rw [hE]; rfl⟩
  · intro e he
    obtain ⟨-, d, hfind, hE⟩ :=
      extractSourcesAux_spec (scored.map projectDoc) [] e he
    have hd : d ∈ scored.map projectDoc := List.mem_of_find?_eq_some hfind
    obtain ⟨p, -, rfl⟩ := List.mem_map.mp hd
    rw [hE]
    exact dictGet_similarity_projectDoc p

theorem c4_citation_contract_witness :
    (∃ d, [projectDoc (docA, (9 : ℚ)/10), projectDoc (docC, 1/2)].find?
        (fun x => sourceNameOf x = "a.pdf") = some d ∧
      "a.pdf" = sourceNameOf d ∧ "alpha content" = excerptOf d ∧
      PVal.vnull = dictGet d "similarity" PVal.vnull) := by
  have h := (c4_citation_contract
    [projectDoc (docA, (9 : ℚ)/10), projectDoc (docC, 1/2)] []).2.2.1
    ⟨"a.pdf", PVal.vnull, "alpha content"⟩ (List.Mem.head _)
  exact h

/-! ### Lemmas about `_carregar_db` -/

theorem mkDocumento_ok (r : RawRecord)
    (h1 : ∀ kv ∈ r, kv.1 ∈ documentoFields)
    (h2 : ∀ k ∈ requiredFields, (lookupKey r k).isSome = true) :
    ∃ doc, mkDocumento r = Except.ok doc := by
  unfold mkDocumento
  rw [if_neg, if_neg]
  · exact ⟨_, rfl⟩
  · intro hc
    rw [List.any_eq_true] at hc
    obtain ⟨k, hk, hnone⟩ := hc
    have := h2 k hk
    simp only [Option.isNone_iff_eq_none] at hnone
    rw [hnone] at this
    exact absurd this (by simp)
  · intro hc
    rw [List.any_eq_true] at hc
    obtain ⟨kv, hkv, hbad⟩ := hc
    have := h1 kv hkv
    simp only [decide_eq_true_eq, List.elem_iff] at hbad
    exact hbad (by simpa using this)

theorem mapParse_error (dados : List RawRecord) :
    ∀ r ∈ dados, ∀ e, mkDocumento r = Except.error e →
      ∃ e2, mapParse dados = Except.error e2 := by
  induction dados with
  | nil =>
    intro r hr
    simp at hr
  | cons d rest ih =>
    intro r hr e he
    rcases List.mem_cons.mp hr with rfl | hr2
    · exact ⟨e, by simp [mapParse, he]⟩
    · cases hm : mkDocumento d with
      | error e2 => exact ⟨e2, by simp [mapParse, hm]⟩
      | ok doc =>
        obtain ⟨e2, he2⟩ := ih r hr2 e he
        exact ⟨e2, by simp [mapParse, hm, he2]⟩

theorem mapParse_ok (dados : List RawRecord)
    (h : ∀ r ∈ dados, (∀ kv ∈ r, kv.1 ∈ documentoFields) ∧
      (∀ k ∈ requiredFields, (lookupKey r k).isSome = true)) :
    ∃ docs, mapParse dados = Except.ok docs ∧ docs.length = dados.length := by
  induction dados with
  | nil => exact ⟨[], rfl, rfl⟩
  | cons d rest ih =>
    obtain ⟨doc, hdoc⟩ := mkDocumento_ok d (h d (List.mem_cons_self d rest)).1
      (h d (List.mem_cons_self d rest)).2
    obtain ⟨docs, hdocs, hlen⟩ := ih
      (fun r hr => h r (List.mem_cons_of_mem d hr))
    refine ⟨doc :: docs, ?_, by simp [hlen]⟩
    simp [mapParse, hdoc, hdocs]

/-- A well-formed persisted record: all eight required fields, no
unknown keys. -/
def goodRecord : RawRecord :=
  [("id", PVal.vstr "a.pdf_t0_0"), ("content", PVal.vstr "hello"),
   ("embedding", PVal.vlist [PVal.vnum 1]), ("source", PVal.vstr "a.pdf"),
   ("type", PVal.vstr "pdf"), ("upload_date", PVal.vstr "t0"),
   ("chunk_index", PVal.vnum 0), ("total_chunks", PVal.vnum 1)]

/-- The same record with one unexpected (misspelled) optional field,
which makes `Documento(**d)` raise `TypeError`. -/
def badRecord : RawRecord := goodRecord ++ [("page_num", PVal.vnum 3)]

/-- C5 as stated is false on the code: `_carregar_db` wraps the whole
comprehension in a single `try`, so one record with an unexpected
optional field aborts the load of all records. At this concrete store
content, the first record is well formed, yet loading yields the empty
collection instead of the well-formed record. -/
theorem c5_counterexample :
    (∃ g, mkDocumento goodRecord = Except.ok g)
    ∧ mkDocumento badRecord = Except.error "unexpected keyword argument"
    ∧ carregar_db [goodRecord, badRecord] = [] :=
  ⟨⟨_, rfl⟩, rfl, rfl⟩

/-- C5 amended. Loading is all-or-nothing: records whose fields are
exactly the dataclass fields (with all required fields present) always
construct, whatever their values, because the dataclass performs no
value validation — so malformed values of optional fields never abort
the load and every record is kept; but as soon as any single record
raises (unexpected or missing field), the exception handler discards
the entire load and the in-memory collection becomes empty, dropping
the well-formed records too. -/
theorem c5_load_all_or_nothing (dados : List RawRecord) :
    ((∀ r ∈ dados, (∀ kv ∈ r, kv.1 ∈ documentoFields) ∧
        (∀ k ∈ requiredFields, (lookupKey r k).isSome = true)) →
      ∃ docs, mapParse dados = Except.ok docs ∧ carregar_db dados = docs ∧
        docs.length = dados.length)
    ∧ (∀ r ∈ dados, ∀ e, mkDocumento r = Except.error e →
        carregar_db dados = []) := by
  constructor
  · intro h
    obtain ⟨docs, hok, hlen⟩ := mapParse_ok dados h
    exact ⟨docs, hok, by rw [carregar_db, hok], hlen⟩
  · intro r hr e he
    obtain ⟨e2, he2⟩ := mapParse_error dados r hr e he
    rw [carregar_db, he2]

theorem c5_load_all_or_nothing_witness :
    (∃ docs, mapParse [goodRecord] = Except.ok docs ∧
      carregar_db [goodRecord] = docs ∧ docs.length = 1)
    ∧ carregar_db [goodRecord, badRecord] = [] := by
  constructor
  · exact (c5_load_all_or_nothing [goodRecord]).1 (by decide)
  · exact (c5_load_all_or_nothing [goodRecord, badRecord]).2 badRecord
      (by exact List.Mem.tail _ (List.Mem.head _))
      "unexpected keyword argument" rfl

end Oraculo
